import Mathlib

/-!
Verification of the MPCDynamicsKamigami repository (forward_mpc_agent.py).

This file gives a shallow embedding of the data model and operations of the
repository and proves or refutes the frozen claims about it.

Conventions of the embedding:
* torch tensors of floating-point numbers are modelled over the reals;
  operations whose float result would be NaN or infinite (division by a zero
  norm, the mean of an empty tensor) are modelled as fallible computations
  returning Option, with none standing for the undefined (NaN-poisoned) value;
* shapes of tensors are modelled as lists of natural numbers where a claim is
  about shapes; operations that raise a shape-mismatch error return none;
* the learned network weights, being runtime data, enter as an opaque
  prediction function parameter; everything around them (cost formulas,
  clamping, selection, scaling, splitting, the training loop structure) is
  translated directly from the source.
-/

namespace Kamigami

/-! ### Shape-level semantics of DynamicsNetwork.forward

forward_mpc_agent.py lines 67-81: a 1-D state (resp. action) tensor is
reshaped by state[:, None] / action[:, None], that is, a trailing axis of
length one is appended; the two tensors are then concatenated along the last
dimension and passed through Linear(state_dim+action_dim, hidden), ReLU,
Dropout, Linear(hidden, hidden), ReLU, Linear(hidden, state_dim).  ReLU and
Dropout preserve shapes.  A Shape is the list of dimensions of a tensor.
-/

/-- Shape of a tensor: its list of dimension sizes. -/
abbrev Shape := List ℕ

/-- torch.cat([s, a], dim=-1) on two 2-D tensors: leading dimensions must
agree, last dimensions add; any other combination raises (modelled none). -/
def catLastDim (s a : Shape) : Option Shape :=
  match s, a with
  | [n, d1], [m, d2] => if n = m then some [n, d1 + d2] else none
  | _, _ => none

/-- nn.Linear(inF, outF) applied to a 2-D tensor: requires the last dimension
to equal inF and replaces it by outF; otherwise a shape error. -/
def linearShape (inF outF : ℕ) (s : Shape) : Option Shape :=
  match s with
  | [n, d] => if d = inF then some [n, outF] else none
  | _ => none

/-- DynamicsNetwork.forward at the shape level (lines 67-81): 1-D inputs get a
trailing axis appended (state[:, None]), then cat along the last dim and the
three Linear layers of self.model. -/
def forwardShape (state_dim action_dim hidden : ℕ) (s a : Shape) : Option Shape :=
  let s2 := if s.length = 1 then s ++ [1] else s
  let a2 := if a.length = 1 then a ++ [1] else a
  (catLastDim s2 a2).bind fun sa =>
    (linearShape (state_dim + action_dim) hidden sa).bind fun h1 =>
      (linearShape hidden hidden h1).bind fun h2 =>
        linearShape hidden state_dim h2

/-- C3, counterexample: with state_dim = action_dim = 2 (the planar robot), a
single 1-D state of shape [2] and a 1-D action of shape [2] are NOT broadcast
to a batch of one: state[:, None] turns them into 2 x 1 tensors, their
concatenation is 2 x 2, and Linear(4, 512) rejects it — the call fails with a
shape mismatch instead of returning a batch-of-one prediction [1, 2]. -/
theorem forward_one_dim_input_fails :
    forwardShape 2 2 512 [2] [2] = none ∧
      forwardShape 2 2 512 [2] [2] ≠ some [1, 2] := by
  constructor
  · rfl
  · intro h
    simp [forwardShape, catLastDim, linearShape] at h

/-- C3, amended: DynamicsNetwork.forward preserves the leading (batch)
dimension on 2-D inputs of matching leading dimension; a pair of 1-D inputs is
reshaped by appending a trailing axis (a length-d vector becomes d examples of
one feature), which forms a valid batch of one exactly when
state_dim = action_dim = 1; for every other dimension pair the 1-D call fails
with a shape mismatch. -/
theorem forward_shape_spec :
    (∀ N sd ad h : ℕ,
        forwardShape sd ad h [N, sd] [N, ad] = some [N, sd]) ∧
      (∀ h : ℕ, forwardShape 1 1 h [1] [1] = some [1, 1]) ∧
      (∀ sd ad h : ℕ, ¬(sd = 1 ∧ ad = 1) →
        forwardShape sd ad h [sd] [ad] = none) := by
  refine ⟨?_, ?_, ?_⟩
  · intro N sd ad h
    simp [forwardShape, catLastDim, linearShape]
  · intro h
    simp [forwardShape, catLastDim, linearShape]
  · intro sd ad h hne
    simp only [forwardShape, catLastDim, linearShape]
    simp only [List.length_cons, List.length_nil]
    by_cases hsa : sd = ad
    · subst hsa
      have h2 : ¬(2 = sd + sd) := by
        rcases Nat.lt_or_ge sd 1 with h0 | h1
        · omega
        · rcases Nat.lt_or_ge sd 2 with hlt | hge
          · interval_cases sd
            · exact absurd ⟨rfl, rfl⟩ hne
          · omega
      simp [h2]
    · simp [hsa]

/-- C3, witness for the amended theorem at concrete inputs: a batch of three
(state, action) pairs with state_dim = action_dim = 2 maps to exactly three
predicted states of dimension 2, and the degenerate scalar model broadcasts a
1-D input to a batch of one. -/
theorem forward_shape_spec_witness :
    forwardShape 2 2 512 [3, 2] [3, 2] = some [3, 2] ∧
      forwardShape 1 1 512 [1] [1] = some [1, 1] := by
  refine ⟨?_, ?_⟩
  · exact forward_shape_spec.1 3 2 2 512
  · exact forward_shape_spec.2.1 512

/-! ### Normalizer: sklearn StandardScaler as used by set_scalers / get_scaled

forward_mpc_agent.py lines 108-124.  A StandardScaler fitted on a column of
data stores the column mean and the square root of the biased variance; a
scale of exactly zero is replaced by one (sklearn handle_zeros_in_scale), so
the stored scale is never zero.  transform subtracts the mean and divides by
the scale; inverse_transform multiplies by the scale and adds the mean.
The output scaler is fitted per feature on the next_states columns.
-/

/-- Per-feature statistics stored by a fitted StandardScaler. -/
structure ScalerF where
  mean : ℝ
  scale : ℝ

/-- Fit one feature column: mean, and sqrt of the biased variance with the
zero-scale case replaced by one, as sklearn StandardScaler.fit does. -/
noncomputable def fitFeature (col : List ℝ) : ScalerF :=
  let n : ℝ := col.length
  let mu := col.sum / n
  let s := Real.sqrt ((col.map fun x => (x - mu) ^ 2).sum / n)
  ⟨mu, if s = 0 then 1 else s⟩

/-- DynamicsNetwork.set_scalers, output side (line 111): fit one scaler per
feature column of next_states. -/
noncomputable def setOutputScaler (cols : List (List ℝ)) : List ScalerF :=
  cols.map fitFeature

/-- StandardScaler.transform on one feature value. -/
noncomputable def scaleFeature (f : ScalerF) (x : ℝ) : ℝ :=
  (x - f.mean) / f.scale

/-- StandardScaler.inverse_transform on one feature value. -/
noncomputable def unscaleFeature (f : ScalerF) (x : ℝ) : ℝ :=
  x * f.scale + f.mean

/-- get_scaled on next_states (lines 121-124): apply the output transform
feature by feature. -/
noncomputable def scaleOutputRow (fs : List ScalerF) (x : List ℝ) : List ℝ :=
  List.zipWith scaleFeature fs x

/-- output_scaler.inverse_transform (line 198): the inverse transform feature
by feature. -/
noncomputable def unscaleOutputRow (fs : List ScalerF) (x : List ℝ) : List ℝ :=
  List.zipWith unscaleFeature fs x

/-- The scale stored by a fitted StandardScaler is never zero: a zero standard
deviation is replaced by one. -/
theorem fitFeature_scale_ne_zero (col : List ℝ) : (fitFeature col).scale ≠ 0 := by
  unfold fitFeature
  dsimp only
  split
  · exact one_ne_zero
  · assumption

/-- One-feature round trip: inverse_transform after transform is the identity
because the stored scale is nonzero. -/
theorem unscaleFeature_scaleFeature (f : ScalerF) (hf : f.scale ≠ 0) (x : ℝ) :
    unscaleFeature f (scaleFeature f x) = x := by
  unfold unscaleFeature scaleFeature
  field_simp

/-- C5: for every batch row x of next_states with the fitted dimensionality,
applying the output scaling transform and then its inverse returns x exactly
(the real-number idealisation of the floating-point tolerance). -/
theorem unscale_scale_round_trip (cols : List (List ℝ)) (x : List ℝ)
    (hlen : x.length = cols.length) :
    unscaleOutputRow (setOutputScaler cols) (scaleOutputRow (setOutputScaler cols) x) = x := by
  have hgen : ∀ fs : List ScalerF, ∀ y : List ℝ, y.length = fs.length →
      (∀ f ∈ fs, f.scale ≠ 0) →
      unscaleOutputRow fs (scaleOutputRow fs y) = y := by
    intro fs
    induction fs with
    | nil =>
      intro y hy _
      cases y with
      | nil => rfl
      | cons a ys => simp at hy
    | cons f fs ih =>
      intro y hy hne
      cases y with
      | nil => simp at hy
      | cons a ys =>
        simp only [unscaleOutputRow, scaleOutputRow, List.zipWith_cons_cons]
        have h1 : unscaleFeature f (scaleFeature f a) = a :=
          unscaleFeature_scaleFeature f (hne f (List.mem_cons_self f fs)) a
        have h2 := ih ys (by simpa using hy)
          (fun g hg => hne g (List.mem_cons_of_mem f hg))
        simp only [unscaleOutputRow, scaleOutputRow] at h2
        rw [h1, h2]
  refine hgen (setOutputScaler cols) x ?_ ?_
  · simpa [setOutputScaler] using hlen
  · intro f hf
    simp only [setOutputScaler, List.mem_map] at hf
    obtain ⟨c, _, rfl⟩ := hf
    exact fitFeature_scale_ne_zero c

/-- C5, witness: a concrete two-feature batch row round-trips through the
scaler fitted on a concrete dataset. -/
theorem unscale_scale_round_trip_witness :
    ([5, 7] : List ℝ).length = ([[1, 3], [2, 2]] : List (List ℝ)).length ∧
      unscaleOutputRow (setOutputScaler [[1, 3], [2, 2]])
        (scaleOutputRow (setOutputScaler [[1, 3], [2, 2]]) [5, 7]) = [5, 7] :=
  ⟨by simp, unscale_scale_round_trip [[1, 3], [2, 2]] [5, 7] (by simp)⟩

/-! ### Trainer: the train/test split

forward_mpc_agent.py lines 213-214: MPCAgent.train splits the dataset once via
sklearn train_test_split with test_size=0.1 and random_state=self.seed.
train_test_split draws a pseudo-random permutation of the indices that is a
pure function of (random_state, n), takes the first ceil(0.1 * n) permuted
indices as the test partition and the rest as the train partition.  The seeded
pseudo-random permutation is modelled by sorting the indices by a concrete
deterministic hash of (seed, index); all that the claims use is that it is a
permutation of the indices determined by (seed, n).
-/

/-- Deterministic per-index key modelling the seeded pseudo-random draw of
train_test_split (a linear congruential hash of seed and index). -/
def splitKey (seed i : ℕ) : ℕ :=
  (1664525 * (seed + 2654435761 * i) + 1013904223) % 4294967296

/-- The seeded permutation of indices 0..n-1 used by the split: indices sorted
by their pseudo-random key.  Sorting List.range n always yields a permutation
of it, so this is a permutation of the indices, fully determined by (seed, n). -/
def splitPerm (seed n : ℕ) : List ℕ :=
  (List.range n).mergeSort fun i j => Nat.ble (splitKey seed i) (splitKey seed j)

/-- MPCAgent.train, the split (lines 213-214): returns (train partition, test
partition); the test partition is the first ceil(n / 10) entries of the seeded
permutation, the train partition the remaining entries. -/
def trainTestSplit {α : Type} [Inhabited α] (data : List α) (seed : ℕ) :
    List α × List α :=
  let n := data.length
  let ntest := (n + 9) / 10
  let perm := splitPerm seed n
  ((perm.drop ntest).map fun i => data.getD i default,
   (perm.take ntest).map fun i => data.getD i default)

/-- Reading every position of a list in order reproduces the list. -/
theorem map_getD_range {α : Type} [Inhabited α] (l : List α) :
    (List.range l.length).map (fun i => l.getD i default) = l := by
  induction l with
  | nil => rfl
  | cons a tl ih =>
    rw [List.length_cons, List.range_succ_eq_map, List.map_cons, List.map_map]
    simp only [List.getD_cons_zero, Function.comp_def, Nat.succ_eq_add_one,
      List.getD_cons_succ]
    rw [ih]

/-- The seeded index permutation really is a permutation of 0..n-1. -/
theorem splitPerm_perm_range (seed n : ℕ) :
    (splitPerm seed n).Perm (List.range n) :=
  List.mergeSort_perm (List.range n) _

/-- C6: the train/test split of MPCAgent.train is a pure function of the
dataset and the caller-supplied seed (two runs with equal seeds produce
identical partitions), it holds out exactly ceil(n / 10) examples as the test
partition, keeps the remaining n - ceil(n / 10) as the train partition, and
the two partitions together are a permutation of the dataset (the split is
performed once, losing and duplicating nothing). -/
theorem train_split_deterministic {α : Type} [Inhabited α]
    (d : List α) (s1 s2 : ℕ) (hseed : s1 = s2) :
    trainTestSplit d s1 = trainTestSplit d s2 ∧
      (trainTestSplit d s1).2.length = (d.length + 9) / 10 ∧
      (trainTestSplit d s1).1.length = d.length - (d.length + 9) / 10 ∧
      ((trainTestSplit d s1).2 ++ (trainTestSplit d s1).1).Perm d := by
  have hlen : (splitPerm s1 d.length).length = d.length := by
    unfold splitPerm
    rw [List.length_mergeSort, List.length_range]
  have hntest : (d.length + 9) / 10 ≤ d.length := by omega
  refine ⟨by rw [hseed], ?_, ?_, ?_⟩
  · simp only [trainTestSplit, List.length_map, List.length_take, hlen]
    omega
  · simp only [trainTestSplit, List.length_map, List.length_drop, hlen]
  · simp only [trainTestSplit]
    rw [← List.map_append, List.take_append_drop]
    have hp : (splitPerm s1 d.length).Perm (List.range d.length) :=
      splitPerm_perm_range s1 d.length
    have hmap := hp.map fun i => d.getD i default
    rw [map_getD_range] at hmap
    exact hmap

/-- C6, witness: splitting a concrete 12-element dataset with seed 7 twice
gives identical partitions, a test partition of ceil(12/10) = 2 elements, a
train partition of 10 elements, and together they permute the dataset. -/
theorem train_split_deterministic_witness :
    trainTestSplit (List.range 12) 7 = trainTestSplit (List.range 12) 7 ∧
      (trainTestSplit (List.range 12) 7).2.length = 2 ∧
      (trainTestSplit (List.range 12) 7).1.length = 10 ∧
      ((trainTestSplit (List.range 12) 7).2 ++
        (trainTestSplit (List.range 12) 7).1).Perm (List.range 12) := by
  have h := train_split_deterministic (List.range 12) 7 7 rfl
  refine ⟨h.1, ?_, ?_, ?_⟩
  · rw [h.2.1]; rfl
  · rw [h.2.2.1]; rfl
  · simpa using h.2.2.2

/-! ### Trainer: the epoch/batch loop and the evaluation checkpoints

forward_mpc_agent.py lines 228-258.  Per batch the loop performs one
DynamicsNetwork.update, then correction_iters hard-example corrections (each
one more update on a subset of the same batch), and, whenever the running
batch counter i satisfies i % test_interval == 0, computes the test loss on
the held-out partition inside torch.no_grad() via
get_prediction(..., scale_input=False) followed by mse_loss — a computation
that reads the parameters and writes only the test_losses list.  The network
parameters are an opaque type P; update and correct enter as the functions
they are at runtime; the test-loss computation is a function P -> R of the
current parameters.
-/

/-- One batch of the training loop, parameter side (lines 238-244): one
update, then correction_iters corrections on the same batch. -/
def batchStep {P B : Type} (upd corr : P → B → P) (ci : ℕ) (p : P) (b : B) : P :=
  (fun q => corr q b)^[ci] (upd p b)

/-- The inner batch loop of MPCAgent.train (lines 233-258): threads the
parameters, the list of recorded test losses and the batch counter through the
batches; at every checkpoint (i % interval = 0) the test loss of the current
parameters is appended to the record. -/
def trainBatches {P B : Type} (stepF : P → B → P) (evalL : P → ℝ) (interval : ℕ) :
    List B → P × List ℝ × ℕ → P × List ℝ × ℕ
  | [], acc => acc
  | b :: bs, (p, tls, i) =>
    trainBatches stepF evalL interval bs
      (stepF p b, if i % interval = 0 then tls ++ [evalL (stepF p b)] else tls, i + 1)

/-- The full epoch loop of MPCAgent.train (lines 229-258): folds the batch
loop over the per-epoch batch lists, starting from the initial parameters with
no recorded losses and batch counter zero. -/
def trainLoop {P B : Type} (stepF : P → B → P) (evalL : P → ℝ) (interval : ℕ)
    (epochs : List (List B)) (p0 : P) : P × List ℝ × ℕ :=
  epochs.foldl (fun acc bs => trainBatches stepF evalL interval bs acc) (p0, [], 0)

/-- The parameters produced by the batch loop are the fold of the update steps
alone, whatever the evaluation function, interval, recorded losses or counter. -/
theorem trainBatches_params {P B : Type} (stepF : P → B → P) (evalL : P → ℝ)
    (interval : ℕ) (bs : List B) :
    ∀ acc : P × List ℝ × ℕ,
      (trainBatches stepF evalL interval bs acc).1 = List.foldl stepF acc.1 bs := by
  induction bs with
  | nil => intro acc; rfl
  | cons b tl ih =>
    intro acc
    obtain ⟨p, tls, i⟩ := acc
    simp only [trainBatches, List.foldl_cons]
    exact ih _

/-- C7: evaluation checkpoints are read-only for the model parameters — after
the whole training loop the parameters equal the fold of the per-batch update
steps alone, and in particular two runs that differ only in their test-loss
function and evaluation interval end with identical parameters. -/
theorem train_eval_frame {P B : Type} (stepF : P → B → P) (e1 e2 : P → ℝ)
    (i1 i2 : ℕ) (epochs : List (List B)) (p0 : P) :
    (trainLoop stepF e1 i1 epochs p0).1 = List.foldl stepF p0 epochs.flatten ∧
      (trainLoop stepF e1 i1 epochs p0).1 = (trainLoop stepF e2 i2 epochs p0).1 := by
  have key : ∀ (e : P → ℝ) (iv : ℕ) (acc : P × List ℝ × ℕ),
      (epochs.foldl (fun a bs => trainBatches stepF e iv bs a) acc).1 =
        List.foldl stepF acc.1 epochs.flatten := by
    intro e iv
    induction epochs with
    | nil => intro acc; simp
    | cons bs tl ih =>
      intro acc
      simp only [List.foldl_cons, List.flatten_cons, List.foldl_append]
      rw [ih, trainBatches_params]
  constructor
  · exact key e1 i1 (p0, [], 0)
  · unfold trainLoop
    rw [key e1 i1 (p0, [], 0), key e2 i2 (p0, [], 0)]

/-- C7, witness: a concrete two-epoch run over integer parameters — the final
parameters are the fold of the updates and agree across two different
evaluation functions and intervals. -/
theorem train_eval_frame_witness :
    (trainLoop (fun (p : ℤ) (b : ℤ) => p + b) (fun _ => 0) 1 [[1, 2], [3]] 0).1 =
        List.foldl (fun (p : ℤ) (b : ℤ) => p + b) 0 [[1, 2], [3]].flatten ∧
      (trainLoop (fun (p : ℤ) (b : ℤ) => p + b) (fun _ => 0) 1 [[1, 2], [3]] 0).1 =
        (trainLoop (fun (p : ℤ) (b : ℤ) => p + b) (fun _ => 1) 5 [[1, 2], [3]] 0).1 :=
  train_eval_frame (fun p b => p + b) (fun _ => 0) (fun _ => 1) 1 5 [[1, 2], [3]] 0

/-! ### Planar geometry primitives shared by the planner and the baseline

States, goals and the initial position are 2-D (mpc_action unpacks
x1, y1 = init and x2, y2 = goal, lines 146-147).  torch operations whose
floating-point result would be NaN (division by a zero norm, mean of an empty
tensor) are modelled as Option-valued computations, none standing for the
undefined value.
-/

/-- A planar point or vector (the robot state is 2-D). -/
abbrev Vec2 := ℝ × ℝ

/-- Euclidean norm of a planar vector, torch.norm on the last axis. -/
noncomputable def norm2 (v : Vec2) : ℝ :=
  Real.sqrt (v.1 ^ 2 + v.2 ^ 2)

/-- torch.clamp(x, lo, hi) on one scalar. -/
noncomputable def clampR (lo hi x : ℝ) : ℝ :=
  min (max x lo) hi

/-- torch.clamp applied to both coordinates of a planar state (line 157,
state_range broadcast over the state dimensions). -/
noncomputable def clampVec (lo hi : ℝ) (v : Vec2) : Vec2 :=
  (clampR lo hi v.1, clampR lo hi v.2)

/-- Floating-point division modelled over the reals: dividing by zero yields
the undefined value none (NaN or infinity in torch). -/
noncomputable def fdiv (x y : ℝ) : Option ℝ :=
  if y = 0 then none else some (x / y)

/-- A planar vector divided by a scalar norm, undefined when the norm is
zero (vec / vec.norm() in the source, lines 149 and 161). -/
noncomputable def fdivVec (v : Vec2) (c : ℝ) : Option Vec2 :=
  if c = 0 then none else some (v.1 / c, v.2 / c)

/-- Dot product of planar vectors (the @ products of lines 165-166). -/
def dotV (u v : Vec2) : ℝ :=
  u.1 * v.1 + u.2 * v.2

/-- torch argmin over the values f 0, ..., f (m-1): the first index attaining
the minimum (index 0 when m = 0, where torch would raise). -/
noncomputable def bestIdx (f : ℕ → ℝ) (m : ℕ) : ℕ :=
  ((List.range m).argmin f).getD 0

theorem norm2_zero : norm2 ((0 : ℝ), (0 : ℝ)) = 0 := by
  unfold norm2
  norm_num

/-- C8 helper: a clamped scalar lies within the bounds whenever lo <= hi. -/
theorem clampR_mem (lo hi x : ℝ) (h : lo ≤ hi) :
    lo ≤ clampR lo hi x ∧ clampR lo hi x ≤ hi := by
  unfold clampR
  constructor
  · exact le_min (le_max_right x lo) h
  · exact min_le_right _ _

/-- bestIdx with a nonempty index range returns an index attaining the minimum
of f over 0..m-1, and it is in range. -/
theorem bestIdx_spec (f : ℕ → ℝ) (m : ℕ) (hm : 0 < m) :
    bestIdx f m < m ∧ ∀ j < m, f (bestIdx f m) ≤ f j := by
  have hne : List.range m ≠ [] := by
    simp [List.range_eq_nil]
    omega
  have hsome : (List.range m).argmin f ≠ none := by
    rw [Ne, List.argmin_eq_none]
    exact hne
  obtain ⟨b, hb⟩ := Option.ne_none_iff_exists.mp hsome
  have hb2 : bestIdx f m = b := by
    unfold bestIdx
    rw [← hb]
    rfl
  have hbmem : b ∈ (List.range m).argmin f := by
    rw [← hb]
    rfl
  constructor
  · rw [hb2]
    have := List.argmin_mem hbmem
    simpa using this
  · intro j hj
    rw [hb2]
    exact List.le_of_mem_argmin (by simpa using hj) hbmem

/-! ### DynamicsNetwork trained flag: the untrained-to-trained transition

forward_mpc_agent.py line 63: the flag is initialised to False in
DynamicsNetwork.__init__; line 260: MPCAgent.train sets it to True after the
epoch loop completes.  No other statement in the repository writes the flag,
and prediction (forward / get_prediction) never consults it.
-/

/-- The observable lifecycle state of a DynamicsNetwork. -/
structure AgentState where
  trained : Bool

/-- The operations of the agent that touch a model during its life. -/
inductive AgentOp
  | trainFull
  | mpcPlan
  | getPred
  | correctBatch
  deriving DecidableEq

/-- Effect of each agent operation on the lifecycle state: a completed
MPCAgent.train sets trained (line 260); planning, prediction and correction
leave the flag untouched (no other write exists in the source). -/
def stepOp (s : AgentState) (op : AgentOp) : AgentState :=
  match op with
  | AgentOp.trainFull => { s with trained := true }
  | _ => s

/-- DynamicsNetwork.__init__ (line 63): the flag starts False. -/
def initAgent : AgentState :=
  ⟨false⟩

/-- Running a sequence of agent operations from construction. -/
def runOps (ops : List AgentOp) : AgentState :=
  ops.foldl stepOp initAgent

theorem foldl_stepOp_trained (ops : List AgentOp) :
    ∀ s : AgentState,
      (ops.foldl stepOp s).trained = (s.trained || ops.contains AgentOp.trainFull) := by
  induction ops with
  | nil => intro s; simp
  | cons op tl ih =>
    intro s
    rw [List.foldl_cons, ih]
    cases op <;> simp [stepOp]

/-- C9: the trained flag is false at construction; every operation preserves a
true flag (the transition is one-way); and after any sequence of operations
the flag is true exactly when a full train call occurred in the sequence. -/
theorem trained_flag_one_way :
    initAgent.trained = false ∧
      (∀ (s : AgentState) (op : AgentOp),
        s.trained = true → (stepOp s op).trained = true) ∧
      (∀ ops : List AgentOp,
        (runOps ops).trained = true ↔ AgentOp.trainFull ∈ ops) := by
  refine ⟨rfl, ?_, ?_⟩
  · intro s op hs
    cases op <;> simp [stepOp, hs]
  · intro ops
    unfold runOps
    rw [foldl_stepOp_trained]
    simp [initAgent]

/-- C9, witness: a prediction followed by a train leaves the flag true, while
prediction and planning alone leave it false. -/
theorem trained_flag_one_way_witness :
    (runOps [AgentOp.getPred, AgentOp.trainFull]).trained = true ∧
      (runOps [AgentOp.getPred, AgentOp.mpcPlan]).trained = false := by
  have h := trained_flag_one_way
  constructor
  · exact (h.2.2 [AgentOp.getPred, AgentOp.trainFull]).mpr (by decide)
  · by_contra hc
    simp only [Bool.not_eq_false] at hc
    exact absurd ((h.2.2 [AgentOp.getPred, AgentOp.mpcPlan]).mp hc) (by decide)

/-! ### MPCAgent.optimal_policy, the table-lookup baseline (lines 275-293)

The table rows are (action, effect) pairs.  In the swarm branch the source
builds candidate torch states states = tensor(state + table[:, 1, None])
(each effect added to both coordinates by broadcasting, line 278), runs
distance = self.mse_loss(states, neighbor_states) per neighbour (line 282,
torch target), averages (line 285), then computes
goal_dists = self.mse_loss(states, goals) (line 287) where
goals = np.tile(goal, (len(states), 1)) (line 286) is a NUMPY array:
nn.MSELoss delegates to F.mse_loss, which calls target.size(), and on an
ndarray the attribute size is an int, not a method — a TypeError is raised at
line 287, before costs (line 288) is assigned and before the shared return
(line 293) is reached.  The variable min_idx is indeed never assigned on this
path, but the unbound read is unreachable.  The non-swarm branch assigns
min_idx = diff.argmin(axis=0), one index per coordinate by broadcasting, and
returns normally.  The torch-versus-numpy distinction is modelled by a tag on
matrix values; mse_loss is a fallible operation that fails exactly on a numpy
target.
-/

/-- Whether a matrix value in the Python code is a torch tensor or a numpy
ndarray. -/
inductive PyMode
  | torchT
  | numpyA
  deriving DecidableEq

/-- A matrix value of the swarm branch: its torch/numpy tag and its rows
(the candidate-state-shaped data, one planar row per table entry). -/
structure PyMat where
  mode : PyMode
  rows : List Vec2

/-- The message of the TypeError raised when F.mse_loss calls target.size()
on a numpy array, whose size attribute is an int. -/
def typeErrorMsg : String :=
  "TypeError: int object is not callable (F.mse_loss called target.size() on a numpy array)"

/-- The message of the Python error raised when a local variable is read
before any assignment. -/
def unboundLocalMsg : String :=
  "UnboundLocalError: local variable min_idx referenced before assignment"

/-- self.mse_loss = nn.MSELoss(reduction=none) as called in optimal_policy:
elementwise squared error of input and target.  F.mse_loss immediately calls
target.size(); a numpy target therefore raises TypeError before anything is
computed. -/
def mseLoss (input target : PyMat) : Except String PyMat :=
  match target.mode with
  | PyMode.numpyA => Except.error typeErrorMsg
  | PyMode.torchT =>
      Except.ok ⟨PyMode.torchT,
        List.zipWith (fun a b => ((a.1 - b.1) ^ 2, (a.2 - b.2) ^ 2))
          input.rows target.rows⟩

/-- MPCAgent.optimal_policy (lines 275-293).  The swarm branch executes lines
277-288 in order: the torch candidate states, one mse_loss per neighbour
against the tiled torch neighbour state, the numpy mean over neighbours, the
mse_loss against the tiled NUMPY goals (the failing call), the dead costs
combination, and finally the shared return, which on this path reads the
never-assigned local min_idx.  The non-swarm branch returns the table actions
at the per-coordinate argmin indices of |vec - effect|. -/
noncomputable def optimalPolicy (state goal : Vec2) (table : List (ℝ × ℝ))
    (neighbors : List Vec2) (swarm : Bool) (swarm_weight : ℝ) :
    Except String (ℝ × ℝ) :=
  let vec := goal - state
  if swarm then
    let states : PyMat :=
      ⟨PyMode.torchT, table.map fun r => (state.1 + r.2, state.2 + r.2)⟩
    (neighbors.mapM fun nb =>
        mseLoss states ⟨PyMode.torchT, table.map fun _ => nb⟩).bind
      fun neighbor_dists =>
        let mean_dists : List Vec2 := (List.range table.length).map fun i =>
          ((neighbor_dists.map fun d => (d.rows.getD i ((0 : ℝ), (0 : ℝ))).1).sum /
              neighbor_dists.length,
           (neighbor_dists.map fun d => (d.rows.getD i ((0 : ℝ), (0 : ℝ))).2).sum /
              neighbor_dists.length)
        (mseLoss states ⟨PyMode.numpyA, table.map fun _ => goal⟩).bind
          fun goal_dists =>
            let _costs := List.zipWith
              (fun g m => (g.1 + swarm_weight * m.1, g.2 + swarm_weight * m.2))
              goal_dists.rows mean_dists
            Except.error unboundLocalMsg
  else
    Except.ok
      ((table.getD (bestIdx (fun i => |vec.1 - (table.getD i default).2|)
          table.length) default).1,
       (table.getD (bestIdx (fun i => |vec.2 - (table.getD i default).2|)
          table.length) default).1)

/-- Mapping an always-successful Except computation over a list succeeds with
the mapped list. -/
theorem mapM_except_ok {ε α β : Type} (g : α → β) (l : List α) :
    (l.mapM fun a => (Except.ok (g a) : Except ε β)) = Except.ok (l.map g) := by
  induction l with
  | nil => rfl
  | cons a tl ih =>
    rw [List.mapM_cons, ih]
    rfl

/-- In the model every swarm call fails at the mse_loss with the numpy goals
target (for nonempty neighbour lists the real program may already fail at the
line-282 mse_loss on dtype grounds; either way no swarm call gets past line
287). -/
theorem optimalPolicy_swarm_eq_typeError (state goal : Vec2)
    (table : List (ℝ × ℝ)) (neighbors : List Vec2) (w : ℝ) :
    optimalPolicy state goal table neighbors true w =
      Except.error typeErrorMsg := by
  unfold optimalPolicy
  simp only [if_true]
  rw [show (fun nb => mseLoss
        ⟨PyMode.torchT, table.map fun r => (state.1 + r.2, state.2 + r.2)⟩
        ⟨PyMode.torchT, table.map fun _ => nb⟩) =
      (fun nb => (Except.ok (⟨PyMode.torchT,
        List.zipWith (fun a b => ((a.1 - b.1) ^ 2, (a.2 - b.2) ^ 2))
          (table.map fun r => (state.1 + r.2, state.2 + r.2))
          (table.map fun _ => nb)⟩ : PyMat) : Except String PyMat)) from rfl]
  rw [mapM_except_ok]
  rfl

/-- C10, counterexample: a concrete swarm call (no neighbours, so line 287 is
certainly the first failing statement) fails with the mse_loss TypeError on
the numpy goals array, not with the unbound-variable error the claim asserts
— execution never reaches the return statement that reads min_idx. -/
theorem optimal_policy_swarm_unbound_claim_false :
    optimalPolicy ((0 : ℝ), (0 : ℝ)) ((5 : ℝ), (5 : ℝ)) [((1 : ℝ), (2 : ℝ))]
        [] true (3 / 10) = Except.error typeErrorMsg ∧
      optimalPolicy ((0 : ℝ), (0 : ℝ)) ((5 : ℝ), (5 : ℝ)) [((1 : ℝ), (2 : ℝ))]
        [] true (3 / 10) ≠ Except.error unboundLocalMsg := by
  have h : optimalPolicy ((0 : ℝ), (0 : ℝ)) ((5 : ℝ), (5 : ℝ))
      [((1 : ℝ), (2 : ℝ))] [] true (3 / 10) = Except.error typeErrorMsg := rfl
  refine ⟨h, ?_⟩
  rw [h]
  intro hc
  have hmsg : typeErrorMsg = unboundLocalMsg := by
    injection hc
  exact absurd hmsg (by decide)

/-- C10, amended: every call of optimal_policy with swarm=True never returns a
value — but the failure is the TypeError raised by the
goal_dists = self.mse_loss(states, goals) call on the numpy goals array (line
287), before the per-candidate costs are assigned and before the final return
is reached; with no neighbours this is exactly the error (the theorem fixes
the error message for that certain case), and min_idx, though indeed never
assigned in the branch, is never read because the TypeError fires first. -/
theorem optimal_policy_swarm_never_returns (state goal : Vec2)
    (table : List (ℝ × ℝ)) (neighbors : List Vec2) (w : ℝ) :
    (∀ v : ℝ × ℝ, optimalPolicy state goal table neighbors true w ≠ Except.ok v) ∧
      optimalPolicy state goal table [] true w = Except.error typeErrorMsg := by
  constructor
  · intro v hv
    rw [optimalPolicy_swarm_eq_typeError] at hv
    exact Except.noConfusion hv
  · exact optimalPolicy_swarm_eq_typeError state goal table [] w

/-- C10, witness for the amended theorem: a concrete swarm call with one
neighbour returns no value, and the same call with no neighbours fails with
exactly the mse_loss TypeError. -/
theorem optimal_policy_swarm_never_returns_witness :
    optimalPolicy ((1 : ℝ), (1 : ℝ)) ((4 : ℝ), (0 : ℝ)) [((2 : ℝ), (1 : ℝ))]
        [((0 : ℝ), (0 : ℝ))] true (1 / 2) ≠ Except.ok ((0 : ℝ), (0 : ℝ)) ∧
      optimalPolicy ((1 : ℝ), (1 : ℝ)) ((4 : ℝ), (0 : ℝ)) [((2 : ℝ), (1 : ℝ))]
        [] true (1 / 2) = Except.error typeErrorMsg :=
  ⟨(optimal_policy_swarm_never_returns ((1 : ℝ), (1 : ℝ)) ((4 : ℝ), (0 : ℝ))
      [((2 : ℝ), (1 : ℝ))] [((0 : ℝ), (0 : ℝ))] (1 / 2)).1 ((0 : ℝ), (0 : ℝ)),
   (optimal_policy_swarm_never_returns ((1 : ℝ), (1 : ℝ)) ((4 : ℝ), (0 : ℝ))
      [((2 : ℝ), (1 : ℝ))] [((0 : ℝ), (0 : ℝ))] (1 / 2)).2⟩

/-! ### MPCAgent.mpc_action, the random-shooting planner (lines 138-177)

The sampled action sequences all_actions[t][j] and the learned one-step
predictor (get_prediction with the trained network weights) are runtime data
and enter as parameters acts and pred; the action type A is opaque to the
cost computation.  Everything else — the rollout with clamping, the four
geometric cost terms, the optional swarm term, the accumulation over the
horizon and the argmin selection of the first action — is translated from the
source.  A NaN produced by a division by a zero norm poisons every total it
reaches and makes the argmin selection meaningless; such a planning call is
modelled as returning none.
-/

/-- All inputs of one mpc_action call.  Field order: pred (the one-step
predictor wrapping the trained network), state, init, goal, lo and hi (the
state_range bounds), acts (the sampled action sequences, indexed step then
sample), n_steps, n_samples, perp_weight, angle_weight, forward_weight,
swarm_weight, swarm, neighbors (the cached states of the neighbour agents). -/
structure MPCParams (A : Type) where
  pred : Vec2 → A → Vec2
  state : Vec2
  init : Vec2
  goal : Vec2
  lo : ℝ
  hi : ℝ
  acts : ℕ → ℕ → A
  n_steps : ℕ
  n_samples : ℕ
  perp_weight : ℝ
  angle_weight : ℝ
  forward_weight : ℝ
  swarm_weight : ℝ
  swarm : Bool
  neighbors : List Vec2

/-- MPCAgent.swarm_loss (lines 201-209) for sample j at one step, given the
whole batch S of sampled states: the mean distance to the neighbour states,
times the batch mean of the goal distances, divided by the norm of the mean
goal.  The mean over an empty neighbour list or an empty batch is NaN in
torch, hence none. -/
noncomputable def swarmLossAt (neighbors : List Vec2) (goal : Vec2) (m : ℕ)
    (S : ℕ → Vec2) (j : ℕ) : Option ℝ :=
  if neighbors = [] ∨ m = 0 then none
  else
    fdiv (((neighbors.map fun nb => norm2 (S j - nb)).sum / neighbors.length) *
        (((Finset.range m).sum fun k => norm2 (goal - S k)) / m))
      (norm2 goal)

/-- The per-sample cost of one horizon step (lines 159-174), for sample j of
the batch S of clamped predicted states: distance to goal, plus the weighted
forward-progress, perpendicular-deviation, heading (arccos) and swarm terms.
optimal_dot and actual_dot divide by vector norms and the perpendicular term
divides by perp_denom; a zero divisor is the undefined value. -/
noncomputable def stepLossAt (init goal : Vec2)
    (perp_weight angle_weight forward_weight swarm_weight : ℝ)
    (swarm : Bool) (neighbors : List Vec2) (m : ℕ)
    (S : ℕ → Vec2) (j : ℕ) : Option ℝ := do
  let od ← fdivVec (goal - init) (norm2 (goal - init))
  let ad ← fdivVec (goal - S j) (norm2 (goal - S j))
  let perp ← fdiv
    |(goal.1 - init.1) * (init.2 - (S j).2) - (init.1 - (S j).1) * (goal.2 - init.2)|
    (norm2 (goal - init))
  let sw ← if swarm then swarmLossAt neighbors goal m S j else some 0
  some (norm2 (goal - S j) + forward_weight * |dotV od (goal - S j)| +
    perp_weight * perp +
    angle_weight * Real.arccos (clampR (-1) 1 (dotV od ad)) +
    swarm_weight * sw)

/-- The rollout of lines 153-157: the batch starts as n_samples copies of the
current state; at each step the predictor is applied and the result clamped
into the state bounds.  rollStates p (t+1) j is the clamped state of sample j
that step t scores. -/
noncomputable def rollStates {A : Type} (p : MPCParams A) : ℕ → ℕ → Vec2
  | 0, _ => p.state
  | t + 1, j => clampVec p.lo p.hi (p.pred (rollStates p t j) (p.acts t j))

/-- all_losses[i][j] (line 173): the step-i cost of sample j, computed on the
batch of clamped predicted states after step i. -/
noncomputable def mpcLossAt {A : Type} (p : MPCParams A) (i j : ℕ) : Option ℝ :=
  stepLossAt p.init p.goal p.perp_weight p.angle_weight p.forward_weight
    p.swarm_weight p.swarm p.neighbors p.n_samples
    (fun k => rollStates p (i + 1) k) j

/-- all_losses.sum(dim=0) for sample j (line 176): the total cost of sample j
across the horizon (undefined entries contribute their NaN; the selection
below only happens when every entry is defined). -/
noncomputable def totalLoss {A : Type} (p : MPCParams A) (j : ℕ) : ℝ :=
  (Finset.range p.n_steps).sum fun i => (mpcLossAt p i j).getD 0

open Classical in
/-- MPCAgent.mpc_action (lines 138-177): when the horizon and sample counts
are positive and no cost entry is NaN, return the step-0 action of the sample
whose total cost over the horizon is minimal; a NaN anywhere poisons the
argmin selection (and an empty horizon or batch raises), modelled none. -/
noncomputable def mpcAction {A : Type} (p : MPCParams A) : Option A :=
  if 0 < p.n_steps ∧ 0 < p.n_samples ∧
      (∀ i < p.n_steps, ∀ j < p.n_samples, mpcLossAt p i j ≠ none) then
    some (p.acts 0 (bestIdx (totalLoss p) p.n_samples))
  else none

/-- C4: for every planning call with a positive horizon and sample count whose
cost entries are all defined, mpc_action returns exactly the first (t = 0)
action of a sample whose total accumulated cost across the horizon is minimal
over all samples. -/
theorem mpc_action_first_action_of_min_cost {A : Type} (p : MPCParams A)
    (h1 : 0 < p.n_steps) (h2 : 0 < p.n_samples)
    (h3 : ∀ i < p.n_steps, ∀ j < p.n_samples, mpcLossAt p i j ≠ none) :
    ∃ b : ℕ, b < p.n_samples ∧ mpcAction p = some (p.acts 0 b) ∧
      ∀ j < p.n_samples, totalLoss p b ≤ totalLoss p j := by
  obtain ⟨hblt, hbmin⟩ := bestIdx_spec (totalLoss p) p.n_samples h2
  refine ⟨bestIdx (totalLoss p) p.n_samples, hblt, ?_, hbmin⟩
  unfold mpcAction
  rw [if_pos ⟨h1, h2, h3⟩]

/-- The planning call of the C4 witness: n_steps = 1, n_samples = 1, the one
sampled action is the constant 37/100, the predictor keeps the state at the
origin, init = (0,0), goal = (1,0), bounds [-10, 10], all optional weights
zero, no swarm. -/
noncomputable def singleSampleParams : MPCParams ℝ :=
  ⟨fun s _ => s, ((0 : ℝ), (0 : ℝ)), ((0 : ℝ), (0 : ℝ)), ((1 : ℝ), (0 : ℝ)),
    -10, 10, fun _ _ => 37 / 100, 1, 1, 0, 0, 0, 0, false, []⟩

theorem singleSampleParams_roll :
    rollStates singleSampleParams 1 0 = ((0 : ℝ), (0 : ℝ)) := by
  show clampVec (-10) 10 ((0 : ℝ), (0 : ℝ)) = ((0 : ℝ), (0 : ℝ))
  have h1 : max (0 : ℝ) (-10) = 0 := max_eq_left (by norm_num)
  have h2 : min (0 : ℝ) 10 = 0 := min_eq_left (by norm_num)
  simp [clampVec, clampR, h1, h2]

theorem singleSampleParams_loss_defined :
    mpcLossAt singleSampleParams 0 0 ≠ none := by
  have hnorm : norm2 ((1 : ℝ), (0 : ℝ)) = 1 := by
    unfold norm2
    norm_num
  have hsub : (((1 : ℝ), (0 : ℝ)) : Vec2) - ((0 : ℝ), (0 : ℝ)) = ((1 : ℝ), (0 : ℝ)) := by
    simp [Prod.ext_iff]
  have hgoal : singleSampleParams.goal = ((1 : ℝ), (0 : ℝ)) := rfl
  have hinit : singleSampleParams.init = ((0 : ℝ), (0 : ℝ)) := rfl
  have hswarm : singleSampleParams.swarm = false := rfl
  unfold mpcLossAt stepLossAt
  simp only [hgoal, hinit, hswarm, Nat.zero_add, singleSampleParams_roll, hsub, hnorm]
  simp [fdivVec, fdiv, Option.bind]

/-- C4, witness at the degenerate planning call n_steps = 1, n_samples = 1:
the returned action is exactly the one sampled action 37/100. -/
theorem mpc_action_first_action_of_min_cost_witness :
    mpcAction singleSampleParams = some (37 / 100 : ℝ) := by
  have h3 : ∀ i < singleSampleParams.n_steps, ∀ j < singleSampleParams.n_samples,
      mpcLossAt singleSampleParams i j ≠ none := by
    intro i hi j hj
    have hi0 : i = 0 := by
      have : singleSampleParams.n_steps = 1 := rfl
      omega
    have hj0 : j = 0 := by
      have : singleSampleParams.n_samples = 1 := rfl
      omega
    rw [hi0, hj0]
    exact singleSampleParams_loss_defined
  obtain ⟨b, hblt, hact, _⟩ :=
    mpc_action_first_action_of_min_cost singleSampleParams
      (by norm_num [singleSampleParams]) (by norm_num [singleSampleParams]) h3
  have hb0 : b = 0 := by
    have : singleSampleParams.n_samples = 1 := rfl
    omega
  rw [hb0] at hact
  exact hact

/-- The degenerate planning call of claim C1: init = goal = (1, 2), so the
init-to-goal vector has zero length.  One step, one sample, identity
predictor, unit heading and perpendicular weights. -/
noncomputable def zeroGoalVecParams : MPCParams Unit :=
  ⟨fun s _ => s, ((3 : ℝ), (4 : ℝ)), ((1 : ℝ), (2 : ℝ)), ((1 : ℝ), (2 : ℝ)),
    -100, 100, fun _ _ => (), 1, 1, 1, 1, 0, 0, false, []⟩

/-- C1: at a planning call whose initial position equals the goal, the source
divides by vec_to_goal.norm() == 0 (lines 149, 150, 164, 165) with no guard:
the heading and perpendicular cost contributions are the undefined value, not
zero, every sample's total cost is poisoned, and the whole planning call is
undefined rather than a defined boundary case. -/
theorem mpc_zero_goal_vector_undefined :
    mpcLossAt zeroGoalVecParams 0 0 = none ∧
      mpcAction zeroGoalVecParams = none := by
  have hsub : (((1 : ℝ), (2 : ℝ)) : Vec2) - ((1 : ℝ), (2 : ℝ)) = ((0 : ℝ), (0 : ℝ)) := by
    simp [Prod.ext_iff]
  have hloss : mpcLossAt zeroGoalVecParams 0 0 = none := by
    unfold mpcLossAt stepLossAt
    simp only [zeroGoalVecParams, hsub, norm2_zero]
    simp [fdivVec]
  refine ⟨hloss, ?_⟩
  unfold mpcAction
  rw [if_neg]
  rintro ⟨-, -, hdef⟩
  exact hdef 0 (by norm_num [zeroGoalVecParams]) 0 (by norm_num [zeroGoalVecParams]) hloss

/-- C8: whenever the state bounds are a real interval (lo <= hi), every
sampled state scored at every horizon step of a planning call is the clamped
predicted state and lies within the bounds coordinatewise — the clamp of line
157 happens before the cost terms of lines 159-174 read the states. -/
theorem mpc_states_clamped_before_cost {A : Type} (p : MPCParams A)
    (h : p.lo ≤ p.hi) :
    ∀ i < p.n_steps, ∀ j : ℕ,
      (p.lo ≤ (rollStates p (i + 1) j).1 ∧ (rollStates p (i + 1) j).1 ≤ p.hi ∧
        p.lo ≤ (rollStates p (i + 1) j).2 ∧ (rollStates p (i + 1) j).2 ≤ p.hi) ∧
      mpcLossAt p i j =
        stepLossAt p.init p.goal p.perp_weight p.angle_weight p.forward_weight
          p.swarm_weight p.swarm p.neighbors p.n_samples
          (fun k => rollStates p (i + 1) k) j := by
  intro i _ j
  have hx := clampR_mem p.lo p.hi (p.pred (rollStates p i j) (p.acts i j)).1 h
  have hy := clampR_mem p.lo p.hi (p.pred (rollStates p i j) (p.acts i j)).2 h
  exact ⟨⟨hx.1, hx.2, hy.1, hy.2⟩, rfl⟩

/-- C8, witness: in the concrete single-sample planning call the state scored
at the first step lies inside the bounds [-10, 10] coordinatewise. -/
theorem mpc_states_clamped_before_cost_witness :
    (-10 : ℝ) ≤ (rollStates singleSampleParams 1 0).1 ∧
      (rollStates singleSampleParams 1 0).1 ≤ 10 ∧
      (-10 : ℝ) ≤ (rollStates singleSampleParams 1 0).2 ∧
      (rollStates singleSampleParams 1 0).2 ≤ 10 := by
  have h := mpc_states_clamped_before_cost singleSampleParams
    (by norm_num [singleSampleParams]) 0 (by norm_num [singleSampleParams]) 0
  exact h.1

/-! ### MPCAgent.correct, the hard-example correction step (lines 263-273)

correct computes batch_size = len(states), selects the indices of the
int(batch_size / 10) largest entries of the per-example loss vector with
torch.topk, and calls DynamicsNetwork.update once on that index subset.
The per-example losses are numbers computed from the batch; they are modelled
over the rationals so the selection is executable.  The update call performs
one optimizer step: torch.optim.Adam (default betas 0.9 and 0.999,
eps 1e-8) on parameters whose gradient is the gradient of the mean squared
error over the selected examples; when the selected subset is empty every
parameter gradient is a sum over zero examples, hence zero, but the Adam step
still moves the parameters along the momentum accumulated by earlier steps.
-/

/-- torch.topk(loss, k).indices: the indices of the k largest entries of
loss, in descending order of value — indices sorted by value descending,
first k taken. -/
def topkIdx (loss : List ℚ) (k : ℕ) : List ℕ :=
  ((List.range loss.length).mergeSort fun i j =>
    decide (loss.getD j 0 ≤ loss.getD i 0)).take k

/-- The index subset chosen by MPCAgent.correct (line 265):
torch.topk(loss, int(batch_size / 10)). -/
def correctSelect (loss : List ℚ) : List ℕ :=
  topkIdx loss (loss.length / 10)

/-- One coordinate of the optimizer state of torch.optim.Adam: the parameter
value, the first and second moment estimates, and the step count. -/
structure AdamState where
  theta : ℝ
  m : ℝ
  v : ℝ
  t : ℕ

/-- One torch.optim.Adam step with the defaults used by DynamicsNetwork
(betas 0.9 and 0.999, eps 1e-8) on one parameter coordinate with gradient
grad: update the biased moments, correct the bias, and move the parameter. -/
noncomputable def adamStep (lr : ℝ) (s : AdamState) (grad : ℝ) : AdamState :=
  let t1 := s.t + 1
  let m1 := (9 / 10) * s.m + (1 / 10) * grad
  let v1 := (999 / 1000) * s.v + (1 / 1000) * grad ^ 2
  ⟨s.theta - lr * (m1 / (1 - (9 / 10 : ℝ) ^ t1)) /
      (Real.sqrt (v1 / (1 - (999 / 1000 : ℝ) ^ t1)) + 1 / 100000000),
    m1, v1, t1⟩

/-- The parameter effect of one MPCAgent.correct call (lines 263-267), on one
parameter coordinate: exactly one update — one Adam step — with the gradient
of the mean squared error restricted to the selected worst examples.  The
gradient is a function of the selected index subset; the loss backward pass
over a subset with zero examples produces the zero gradient (a parameter
gradient is a sum over the examples of the batch). -/
noncomputable def correctParamStep (lr : ℝ) (loss : List ℚ)
    (gradOf : List ℕ → ℝ) (s : AdamState) : AdamState :=
  adamStep lr s (gradOf (correctSelect loss))

/-- C2, counterexample: a batch of size 9 < 10 selects the empty subset, the
gradient of the empty subset is zero, yet the single Adam update that correct
still issues moves the parameter away from its value (the momentum
accumulated by the previous training step keeps acting): the correction is
not a parameter-preserving no-op.  The optimizer state is the one reached
after one earlier step with gradient 1 from parameter value 0. -/
theorem correct_small_batch_not_noop :
    (correctParamStep (7 / 10000) (List.replicate 9 1) (fun _ => 0)
        ⟨0, 1 / 10, 1 / 1000, 1⟩).theta ≠ (0 : ℝ) := by
  unfold correctParamStep adamStep
  simp only
  intro hc
  rw [zero_sub, neg_eq_zero] at hc
  have hm : ((9 : ℝ) / 10) * (1 / 10) + (1 / 10) * 0 = 9 / 100 := by norm_num
  have hb : (1 - (9 / 10 : ℝ) ^ (1 + 1)) = 19 / 100 := by norm_num
  have hpos : (0 : ℝ) <
      (7 / 10000) * (((9 : ℝ) / 10 * (1 / 10) + 1 / 10 * 0) / (1 - (9 / 10 : ℝ) ^ (1 + 1))) /
        (Real.sqrt (((999 : ℝ) / 1000 * (1 / 1000) + 1 / 1000 * 0 ^ 2) /
          (1 - (999 / 1000 : ℝ) ^ (1 + 1))) + 1 / 100000000) := by
    apply div_pos
    · rw [hm, hb]
      norm_num
    · have h1 : (0 : ℝ) ≤ Real.sqrt (((999 : ℝ) / 1000 * (1 / 1000) + 1 / 1000 * 0 ^ 2) /
          (1 - (999 / 1000 : ℝ) ^ (1 + 1))) := Real.sqrt_nonneg _
      nlinarith
  exact absurd hc (ne_of_gt hpos)

/-- C2, amended: correct selects exactly floor(B/10) indices for a batch of
size B, each in range, carrying the largest loss values (every unselected
loss is at most every selected loss); a batch of size B < 10 selects the
empty subset — but the one update correct issues is still executed, and by
the counterexample above it can change the parameters, so the B < 10 case is
not a parameter-preserving no-op. -/
theorem correct_selects_floor_tenth (loss : List ℚ) :
    (correctSelect loss).length = loss.length / 10 ∧
      (loss.length < 10 → correctSelect loss = []) ∧
      (∀ i ∈ correctSelect loss, i < loss.length) ∧
      (∀ i ∈ correctSelect loss, ∀ j < loss.length, j ∉ correctSelect loss →
        loss.getD j 0 ≤ loss.getD i 0) := by
  have hlen : ((List.range loss.length).mergeSort fun i j =>
      decide (loss.getD j 0 ≤ loss.getD i 0)).length = loss.length := by
    rw [List.length_mergeSort, List.length_range]
  refine ⟨?_, ?_, ?_, ?_⟩
  · unfold correctSelect topkIdx
    rw [List.length_take, hlen]
    exact Nat.min_eq_left (Nat.div_le_self _ _)
  · intro hsmall
    unfold correctSelect topkIdx
    rw [Nat.div_eq_of_lt hsmall]
    exact List.take_zero _
  · intro i hi
    unfold correctSelect topkIdx at hi
    have hmem := List.take_subset _ _ hi
    rw [List.mem_mergeSort, List.mem_range] at hmem
    exact hmem
  · intro i hi j hj hjn
    have hsorted := @List.sorted_mergeSort ℕ
      (fun i j => decide (loss.getD j 0 ≤ loss.getD i 0))
      (by
        intro a b c hab hbc
        simp only [decide_eq_true_eq] at hab hbc ⊢
        exact le_trans hbc hab)
      (by
        intro a b
        simp only [Bool.or_eq_true, decide_eq_true_eq]
        exact le_total (loss.getD b 0) (loss.getD a 0))
      (List.range loss.length)
    set sorted := (List.range loss.length).mergeSort fun i j =>
      decide (loss.getD j 0 ≤ loss.getD i 0) with hsortdef
    have hsplit : sorted.take (loss.length / 10) ++ sorted.drop (loss.length / 10) =
        sorted := List.take_append_drop _ _
    have hpair : List.Pairwise (fun i j => decide (loss.getD j 0 ≤ loss.getD i 0) = true)
        (sorted.take (loss.length / 10) ++ sorted.drop (loss.length / 10)) := by
      rw [hsplit]
      exact hsorted
    have hfact := (List.pairwise_append.mp hpair).2.2
    have hjmem : j ∈ sorted := by
      rw [hsortdef, List.mem_mergeSort, List.mem_range]
      exact hj
    have hjdrop : j ∈ sorted.drop (loss.length / 10) := by
      rw [← hsplit] at hjmem
      rcases List.mem_append.mp hjmem with hjt | hjd
      · exact absurd hjt hjn
      · exact hjd
    have := hfact i hi j hjdrop
    simpa using this

/-- C2, witness for the amended theorem: on a concrete batch of 11 losses the
selection has size floor(11/10) = 1, its index is in range, and it carries a
maximal loss; on a batch of 9 the selection is empty. -/
theorem correct_selects_floor_tenth_witness :
    (correctSelect [3, 1, 4, 1, 5, 9, 2, 6, 5, 3, 5]).length = 1 ∧
      correctSelect (List.replicate 9 (1 : ℚ)) = [] ∧
      (∀ i ∈ correctSelect [3, 1, 4, 1, 5, 9, 2, 6, 5, 3, 5], i < 11) := by
  have h11 := correct_selects_floor_tenth [3, 1, 4, 1, 5, 9, 2, 6, 5, 3, 5]
  have h9 := correct_selects_floor_tenth (List.replicate 9 (1 : ℚ))
  refine ⟨?_, ?_, ?_⟩
  · rw [h11.1]
    rfl
  · exact h9.2.1 (by simp)
  · intro i hi
    have := h11.2.2.1 i hi
    simpa using this

end Kamigami
